import Mathlib

/-!
# Verification of the work-stealing scheduler demo

This file embeds `demonstrate_work_stealing` from
`src/chapter17_work_stealing.rs` and proves the specified properties of
the work-stealing scheduler against it.

The demo builds a global `Injector<u64>`, `num_workers = 4` crossbeam FIFO
local deques (each with one `Stealer`), a shared `AtomicBool` flag
`running`, and spawns one thread per worker running

```
while running.load(Relaxed) || !worker.is_empty() {
    if let Some(task) = worker.pop() { processed += 1; sleep(...); continue }
    if let Success(task) = injector.steal() { processed += 1; sleep(...); continue }
    for (i, stealer) in stealers.iter().enumerate() {
        if i != id {
            if let Success(task) = stealer.steal() {
                stolen += 1; processed += 1; sleep(...); break
            }
        }
    }
    sleep(100us)   -- reached after the stealer loop, successful or not
}
```

The main thread then pushes 100 tasks with costs `i % 10 + 1`, sleeps,
stores `running = false`, joins every handle and sums the returned
`processed` counters.

We model this as a small-step interleaving semantics.  Every atomic access
to shared state (the flag, the injector, a deque end) is one step; each
worker thread carries a program counter marking which access it performs
next; a schedule (a list of actors) resolves the nondeterminism of the OS
scheduler, and `run` executes a schedule from the initial state.  Task
execution (`thread::sleep(cost * 10)`) touches no shared state and is
folded into the step that obtained the task.
-/

namespace WorkStealing

/-- Program counter of a worker thread: one position per atomic access in
the loop body of `demonstrate_work_stealing` (lines 41-71). -/
inductive WPc where
  /-- about to read `running` in the while condition (line 41, left) -/
  | condR
  /-- about to check `worker.is_empty()` (line 41, right; reached only
  when `running` read `false`) -/
  | condE
  /-- about to `worker.pop()` (line 43) -/
  | tryLocal
  /-- about to `injector.steal()` (line 51) -/
  | tryGlobal
  /-- about to try `stealers[j].steal()` (lines 58-67), skipping `j = id` -/
  | trySteal (j : Nat)
  /-- about to perform the 100us sleep at the bottom of the loop (line 70) -/
  | backoff
  /-- the loop exited; the thread returns `processed` (line 77) -/
  | stopped
deriving DecidableEq, BEq, Repr

/-- Thread-private state of one worker: its loop position and the
`processed` / `stolen` counters of the Rust closure (lines 38-39). -/
structure WState where
  pc : WPc
  processed : Nat
  stolen : Nat
deriving DecidableEq, BEq, Repr

/-- The shared state of the demo: the task costs the main thread has not
yet pushed, the global injector, every worker's local deque, every worker
thread's private state, and the `running` flag. -/
structure SchedState where
  pending : List Nat
  global : List Nat
  locals : List (List Nat)
  workers : List WState
  running : Bool
deriving DecidableEq, BEq, Repr

/-- An actor scheduled for its next atomic step: the main thread or the
worker thread with the given index. -/
inductive Act where
  | main
  | worker (i : Nat)
deriving DecidableEq, BEq, Repr

/-- Replace worker `i`'s thread state. -/
def setW (s : SchedState) (i : Nat) (w : WState) : SchedState :=
  { s with workers := s.workers.set i w }

/-- Structural list lookup; definitionally equal to `l[i]?` but cheap for
the kernel to evaluate on concrete executions. -/
def nth {α : Type} : List α → Nat → Option α
  | [], _ => none
  | a :: _, 0 => some a
  | _ :: t, n + 1 => nth t n

@[simp] lemma nth_eq_getElem? {α : Type} :
    ∀ (L : List α) (i : Nat), nth L i = L[i]? := by
  intro L
  induction L with
  | nil => intro i; cases i <;> simp [nth]
  | cons a t ih =>
      intro i
      cases i with
      | zero => simp [nth]
      | succ m =>
          rw [List.getElem?_cons_succ]
          exact ih m

/-- One atomic step of worker `i` whose current thread state is `w`,
following the loop body of `demonstrate_work_stealing` access by access. -/
def stepWorker (s : SchedState) (i : Nat) (w : WState) : SchedState :=
  match w.pc with
  | .condR =>
      if s.running then setW s i { w with pc := .tryLocal }
      else setW s i { w with pc := .condE }
  | .condE =>
      match (nth s.locals i).getD [] with
      | [] => setW s i { w with pc := .stopped }
      | _ :: _ => setW s i { w with pc := .tryLocal }
  | .tryLocal =>
      match (nth s.locals i).getD [] with
      | [] => setW s i { w with pc := .tryGlobal }
      | _ :: rest =>
          { pending := s.pending
            global := s.global
            locals := s.locals.set i rest
            workers := s.workers.set i
              { w with pc := .condR, processed := w.processed + 1 }
            running := s.running }
  | .tryGlobal =>
      match s.global with
      | [] => setW s i { w with pc := .trySteal 0 }
      | _ :: rest =>
          { pending := s.pending
            global := rest
            locals := s.locals
            workers := s.workers.set i
              { w with pc := .condR, processed := w.processed + 1 }
            running := s.running }
  | .trySteal j =>
      if j < s.locals.length then
        if j = i then setW s i { w with pc := .trySteal (j + 1) }
        else
          match (nth s.locals j).getD [] with
          | [] => setW s i { w with pc := .trySteal (j + 1) }
          | _ :: rest =>
              { pending := s.pending
                global := s.global
                locals := s.locals.set j rest
                workers := s.workers.set i
                  { w with
                    pc := .backoff
                    processed := w.processed + 1
                    stolen := w.stolen + 1 }
                running := s.running }
      else setW s i { w with pc := .backoff }
  | .backoff => setW s i { w with pc := .condR }
  | .stopped => s

/-- One atomic step of the main thread: push the next task cost into the
injector (line 84); once all pushes are done, the next main-thread action
is `running.store(false)` (line 89); afterwards the main thread only waits
in `join`. -/
def stepMain (s : SchedState) : SchedState :=
  match s.pending with
  | t :: rest => { s with pending := rest, global := s.global ++ [t] }
  | [] => if s.running then { s with running := false } else s

/-- One atomic step by the scheduled actor. -/
def step (s : SchedState) (a : Act) : SchedState :=
  match a with
  | .main => stepMain s
  | .worker i =>
      match nth s.workers i with
      | some w => stepWorker s i w
      | none => s

/-- Initial state (lines 13-37): `n` workers, each with a fresh empty
FIFO deque and zero counters, an empty injector, `running = true`, and
all submissions still pending in the main thread. -/
def init (n : Nat) (tasks : List Nat) : SchedState :=
  { pending := tasks, global := [], locals := List.replicate n [],
    workers := List.replicate n { pc := .condR, processed := 0, stolen := 0 },
    running := true }

/-- Execute a schedule from the initial state. -/
def run (n : Nat) (tasks : List Nat) (sched : List Act) : SchedState :=
  sched.foldl step (init n tasks)

/-- Sum of all workers' `processed` counters (the demo's `total`,
lines 91-94). -/
def sumProcessed (s : SchedState) : Nat :=
  (s.workers.map (fun w => w.processed)).sum

/-- Sum of all workers' `stolen` counters. -/
def sumStolen (s : SchedState) : Nat :=
  (s.workers.map (fun w => w.stolen)).sum

/-- Total number of tasks sitting in local deques. -/
def localsLen (s : SchedState) : Nat :=
  (s.locals.map (fun l => l.length)).sum

/-- Every worker thread has exited its loop. -/
def allStopped (s : SchedState) : Bool :=
  s.workers.all (fun w => w.pc == .stopped)

/-- The single `running.store(false, Relaxed)` performed at shutdown
(line 89). -/
def shutdownOp (s : SchedState) : SchedState :=
  { s with running := false }

/-- `injector.push` as used for submission (line 84). -/
def submit (s : SchedState) (t : Nat) : SchedState :=
  { s with global := s.global ++ [t] }

/-- Modelled from the spec: the error that `new` reports when
`worker_count == 0` (spec section 4.4 and section 7).  The constructor itself is
absent from the source, which hard-codes `num_workers = 4` (line 16). -/
inductive ConfigurationError where
  | zeroWorkers
deriving DecidableEq, Repr

/-- Modelled from the spec: `new(worker_count, config)` builds the Global
Queue, one Local Queue plus Steal Handle per worker, and starts
`worker_count` threads, failing with a `ConfigurationError` when
`worker_count == 0` (spec section 4.4).  The success case is exactly the demo's
construction (lines 13-37) with `worker_count` workers and no tasks yet. -/
def new (worker_count : Nat) : Except ConfigurationError SchedState :=
  if worker_count = 0 then .error .zeroWorkers
  else .ok (init worker_count [])

/-- Modelled from the spec: `join()` blocks until every worker reaches
Stopped and then returns `{total_processed, total_stolen}` (spec section 4.4).
The demo joins every handle and sums the returned `processed` counters
(lines 91-94); the `stolen` counters are printed per worker (lines 73-76)
but the aggregate pair is only described by the spec. -/
def joinResult (s : SchedState) : Option (Nat × Nat) :=
  if allStopped s then some (sumProcessed s, sumStolen s) else none

/-- The 100 task costs `i % 10 + 1` pushed by the demo (lines 83-85). -/
def tasks100 : List Nat :=
  (List.range 100).map (fun i => i % 10 + 1)


/-! ### Schedules used for concrete executions -/

/-- A schedule for one worker and one task in which the main thread pushes
the task and flips the flag before the worker takes a single step. -/
def c1sched : List Act := [.main, .main, .worker 0, .worker 0]

/-- A complete schedule for the demo scenario: the main thread pushes all
100 tasks, worker 0 drains the injector (three atomic steps per task),
the main thread flips the flag, and each worker observes the flag and
exits. -/
def c2sched : List Act :=
  List.replicate 100 .main ++ List.replicate 300 (.worker 0) ++ [.main] ++
    [.worker 0, .worker 0, .worker 1, .worker 1, .worker 2, .worker 2,
      .worker 3, .worker 3]

/-- A schedule in which the flag is flipped while worker 0 is inside the
loop body, so the worker reaches the bottom-of-loop sleep with the flag
already `Stopping`. -/
def c5sched : List Act := [.worker 0, .main, .worker 0, .worker 0, .worker 0, .worker 0]

/-! ### Helper lemmas -/


lemma getD_of_all_nil {L : List (List Nat)} (h : ∀ l ∈ L, l = []) (i : Nat) :
    L[i]?.getD [] = [] := by
  cases hg : L[i]? with
  | none => rfl
  | some x => exact h x (List.getElem?_mem hg)

lemma sum_map_set {α : Type} (f : α → Nat) (L : List α) :
    ∀ (i : Nat) (w w₂ : α), L[i]? = some w →
      ((L.set i w₂).map f).sum + f w = (L.map f).sum + f w₂ := by
  induction L with
  | nil => intro i w w₂ h; simp at h
  | cons a t ih =>
      intro i w w₂ h
      cases i with
      | zero =>
          simp only [List.getElem?_cons_zero, Option.some.injEq] at h
          subst h
          simp only [List.set_cons_zero, List.map_cons, List.sum_cons]
          omega
      | succ m =>
          simp only [List.getElem?_cons_succ] at h
          have := ih m w w₂ h
          simp only [List.set_cons_succ, List.map_cons, List.sum_cons]
          omega

lemma getElem?_set_self_of_some {α : Type} {L : List α} {i : Nat} {w : α}
    (h : L[i]? = some w) (w₂ : α) : (L.set i w₂)[i]? = some w₂ := by
  have hlt : i < L.length := by
    cases hq : L[i]? with
    | none => rw [hq] at h; cases h
    | some x => exact (List.getElem?_eq_some_iff.mp hq).1
  exact List.getElem?_set_self hlt

lemma stepMain_workers {s : SchedState} : (stepMain s).workers = s.workers := by
  unfold stepMain
  split
  · rfl
  · split <;> rfl

lemma stepMain_locals {s : SchedState} : (stepMain s).locals = s.locals := by
  unfold stepMain
  split
  · rfl
  · split <;> rfl

lemma stepWorker_running {s : SchedState} {i : Nat} {w : WState} :
    (stepWorker s i w).running = s.running := by
  unfold stepWorker
  cases w.pc <;> dsimp only <;> (repeat' split) <;> simp [setW]

lemma stepWorker_pending {s : SchedState} {i : Nat} {w : WState} :
    (stepWorker s i w).pending = s.pending := by
  unfold stepWorker
  cases w.pc <;> dsimp only <;> (repeat' split) <;> simp [setW]

lemma stepWorker_getElem?_ne {s : SchedState} {i k : Nat} {w : WState} (hki : k ≠ i) :
    (stepWorker s k w).workers[i]? = s.workers[i]? := by
  unfold stepWorker
  cases w.pc <;> dsimp only <;> (repeat' split) <;>
    simp [setW, List.getElem?_set_ne hki]

lemma step_worker_absent {s : SchedState} {i : Nat}
    (h : s.workers[i]? = none) : step s (.worker i) = s := by
  simp [step, h]

lemma step_stopped {s : SchedState} {i : Nat} {w : WState}
    (hw : s.workers[i]? = some w) (hpc : w.pc = .stopped) :
    step s (.worker i) = s := by
  simp [step, hw, stepWorker, hpc]

lemma step_condR_running {s : SchedState} {i : Nat} {w : WState}
    (hw : s.workers[i]? = some w) (hpc : w.pc = .condR) (hr : s.running = true) :
    step s (.worker i) = setW s i { w with pc := .tryLocal } := by
  simp [step, hw, stepWorker, hpc, hr]

lemma step_condR_stopping {s : SchedState} {i : Nat} {w : WState}
    (hw : s.workers[i]? = some w) (hpc : w.pc = .condR) (hr : s.running = false) :
    step s (.worker i) = setW s i { w with pc := .condE } := by
  simp [step, hw, stepWorker, hpc, hr]

lemma step_condE_nil {s : SchedState} {i : Nat} {w : WState}
    (hw : s.workers[i]? = some w) (hpc : w.pc = .condE)
    (hl : s.locals[i]?.getD [] = []) :
    step s (.worker i) = setW s i { w with pc := .stopped } := by
  simp [step, hw, stepWorker, hpc, hl]

lemma step_condE_cons {s : SchedState} {i : Nat} {w : WState} {t : Nat} {r : List Nat}
    (hw : s.workers[i]? = some w) (hpc : w.pc = .condE)
    (hl : s.locals[i]?.getD [] = t :: r) :
    step s (.worker i) = setW s i { w with pc := .tryLocal } := by
  simp [step, hw, stepWorker, hpc, hl]

lemma step_tryLocal_nil {s : SchedState} {i : Nat} {w : WState}
    (hw : s.workers[i]? = some w) (hpc : w.pc = .tryLocal)
    (hl : s.locals[i]?.getD [] = []) :
    step s (.worker i) = setW s i { w with pc := .tryGlobal } := by
  simp [step, hw, stepWorker, hpc, hl]

lemma step_tryLocal_cons {s : SchedState} {i : Nat} {w : WState} {t : Nat} {r : List Nat}
    (hw : s.workers[i]? = some w) (hpc : w.pc = .tryLocal)
    (hl : s.locals[i]?.getD [] = t :: r) :
    step s (.worker i) =
      { pending := s.pending
        global := s.global
        locals := s.locals.set i r
        workers := s.workers.set i
          { w with pc := .condR, processed := w.processed + 1 }
        running := s.running } := by
  simp [step, hw, stepWorker, hpc, hl]

lemma step_tryGlobal_nil {s : SchedState} {i : Nat} {w : WState}
    (hw : s.workers[i]? = some w) (hpc : w.pc = .tryGlobal)
    (hg : s.global = []) :
    step s (.worker i) = setW s i { w with pc := .trySteal 0 } := by
  simp [step, hw, stepWorker, hpc, hg]

lemma step_tryGlobal_cons {s : SchedState} {i : Nat} {w : WState} {t : Nat} {r : List Nat}
    (hw : s.workers[i]? = some w) (hpc : w.pc = .tryGlobal)
    (hg : s.global = t :: r) :
    step s (.worker i) =
      { pending := s.pending
        global := r
        locals := s.locals
        workers := s.workers.set i
          { w with pc := .condR, processed := w.processed + 1 }
        running := s.running } := by
  simp [step, hw, stepWorker, hpc, hg]

lemma step_trySteal_beyond {s : SchedState} {i j : Nat} {w : WState}
    (hw : s.workers[i]? = some w) (hpc : w.pc = .trySteal j)
    (hj : ¬ j < s.locals.length) :
    step s (.worker i) = setW s i { w with pc := .backoff } := by
  simp [step, hw, stepWorker, hpc, hj]

lemma step_trySteal_self {s : SchedState} {i j : Nat} {w : WState}
    (hw : s.workers[i]? = some w) (hpc : w.pc = .trySteal j)
    (hj : j < s.locals.length) (hji : j = i) :
    step s (.worker i) = setW s i { w with pc := .trySteal (j + 1) } := by
  subst hji
  simp [step, hw, stepWorker, hpc, hj]

lemma step_trySteal_nil {s : SchedState} {i j : Nat} {w : WState}
    (hw : s.workers[i]? = some w) (hpc : w.pc = .trySteal j)
    (hj : j < s.locals.length) (hji : ¬ j = i)
    (hl : s.locals[j]?.getD [] = []) :
    step s (.worker i) = setW s i { w with pc := .trySteal (j + 1) } := by
  have hl2 : s.locals[j] = [] := by
    rw [List.getElem?_eq_getElem hj] at hl
    simpa using hl
  simp [step, hw, stepWorker, hpc, hj, hji, hl2]

lemma step_trySteal_cons {s : SchedState} {i j : Nat} {w : WState} {t : Nat} {r : List Nat}
    (hw : s.workers[i]? = some w) (hpc : w.pc = .trySteal j)
    (hj : j < s.locals.length) (hji : ¬ j = i)
    (hl : s.locals[j]?.getD [] = t :: r) :
    step s (.worker i) =
      { pending := s.pending
        global := s.global
        locals := s.locals.set j r
        workers := s.workers.set i
          { w with
            pc := .backoff
            processed := w.processed + 1
            stolen := w.stolen + 1 }
        running := s.running } := by
  have hl2 : s.locals[j] = t :: r := by
    rw [List.getElem?_eq_getElem hj] at hl
    simpa using hl
  simp [step, hw, stepWorker, hpc, hj, hji, hl2]

lemma step_backoff {s : SchedState} {i : Nat} {w : WState}
    (hw : s.workers[i]? = some w) (hpc : w.pc = .backoff) :
    step s (.worker i) = setW s i { w with pc := .condR } := by
  simp [step, hw, stepWorker, hpc]

lemma step_main_push {s : SchedState} {t : Nat} {r : List Nat}
    (h : s.pending = t :: r) :
    step s .main = { s with pending := r, global := s.global ++ [t] } := by
  simp [step, stepMain, h]

lemma step_main_shutdown {s : SchedState}
    (h1 : s.pending = []) (h2 : s.running = true) :
    step s .main = shutdownOp s := by
  simp [step, stepMain, h1, h2, shutdownOp]

lemma step_main_idle {s : SchedState}
    (h1 : s.pending = []) (h2 : s.running = false) :
    step s .main = s := by
  simp [step, stepMain, h1, h2]


/-! ### The execution invariant -/

/-- The invariant every execution maintains: no local deque ever holds a
task (the demo never pushes into one), every `stolen` counter is zero, and
the submitted tasks are exactly split between the pending submissions, the
injector, and the processed counters (no loss, no duplication). -/
def Inv (N : Nat) (s : SchedState) : Prop :=
  (∀ l ∈ s.locals, l = []) ∧
  (∀ w ∈ s.workers, w.stolen = 0) ∧
  s.pending.length + s.global.length + sumProcessed s = N

lemma inv_setW {N : Nat} {s : SchedState} {i : Nat} {w w₂ : WState}
    (h : Inv N s) (hw : s.workers[i]? = some w)
    (hpr : w₂.processed = w.processed) (hst : w₂.stolen = w.stolen) :
    Inv N (setW s i w₂) := by
  obtain ⟨h1, h2, h3⟩ := h
  refine ⟨fun l hl => h1 l hl, ?_, ?_⟩
  · intro x hx
    rcases List.mem_or_eq_of_mem_set hx with h4 | h4
    · exact h2 x h4
    · subst h4
      rw [hst]
      exact h2 w (List.getElem?_mem hw)
  · have hs := sum_map_set (fun x => x.processed) s.workers i w w₂ hw
    simp only [setW, sumProcessed] at *
    omega

lemma inv_step {N : Nat} {s : SchedState} (a : Act) (h : Inv N s) :
    Inv N (step s a) := by
  obtain ⟨h1, h2, h3⟩ := h
  cases a with
  | main =>
      cases hp : s.pending with
      | cons t r =>
          rw [step_main_push hp]
          refine ⟨h1, h2, ?_⟩
          rw [hp] at h3
          simp only [sumProcessed] at *
          simp only [List.length_cons, List.length_append, List.length_cons,
            List.length_nil] at *
          omega
      | nil =>
          cases hr : s.running with
          | true =>
              rw [step_main_shutdown hp hr]
              exact ⟨h1, h2, h3⟩
          | false =>
              rw [step_main_idle hp hr]
              exact ⟨h1, h2, h3⟩
  | worker i =>
      cases hw : s.workers[i]? with
      | none =>
          rw [step_worker_absent hw]
          exact ⟨h1, h2, h3⟩
      | some w =>
          have hmem := List.getElem?_mem hw
          cases hpc : w.pc with
          | condR =>
              cases hr : s.running with
              | true =>
                  rw [step_condR_running hw hpc hr]
                  exact inv_setW ⟨h1, h2, h3⟩ hw rfl rfl
              | false =>
                  rw [step_condR_stopping hw hpc hr]
                  exact inv_setW ⟨h1, h2, h3⟩ hw rfl rfl
          | condE =>
              rw [step_condE_nil hw hpc (getD_of_all_nil h1 i)]
              exact inv_setW ⟨h1, h2, h3⟩ hw rfl rfl
          | tryLocal =>
              rw [step_tryLocal_nil hw hpc (getD_of_all_nil h1 i)]
              exact inv_setW ⟨h1, h2, h3⟩ hw rfl rfl
          | tryGlobal =>
              cases hg : s.global with
              | nil =>
                  rw [step_tryGlobal_nil hw hpc hg]
                  exact inv_setW ⟨h1, h2, h3⟩ hw rfl rfl
              | cons t r =>
                  rw [step_tryGlobal_cons hw hpc hg]
                  refine ⟨h1, ?_, ?_⟩
                  · intro x hx
                    rcases List.mem_or_eq_of_mem_set hx with h4 | h4
                    · exact h2 x h4
                    · subst h4
                      exact h2 w hmem
                  · have hs := sum_map_set (fun x => x.processed) s.workers i w
                      { w with pc := .condR, processed := w.processed + 1 } hw
                    rw [hg] at h3
                    simp only [sumProcessed, List.length_cons] at *
                    omega
          | trySteal j =>
              by_cases hj : j < s.locals.length
              · by_cases hji : j = i
                · rw [step_trySteal_self hw hpc hj hji]
                  exact inv_setW ⟨h1, h2, h3⟩ hw rfl rfl
                · rw [step_trySteal_nil hw hpc hj hji (getD_of_all_nil h1 j)]
                  exact inv_setW ⟨h1, h2, h3⟩ hw rfl rfl
              · rw [step_trySteal_beyond hw hpc hj]
                exact inv_setW ⟨h1, h2, h3⟩ hw rfl rfl
          | backoff =>
              rw [step_backoff hw hpc]
              exact inv_setW ⟨h1, h2, h3⟩ hw rfl rfl
          | stopped =>
              rw [step_stopped hw hpc]
              exact ⟨h1, h2, h3⟩

lemma inv_foldl {N : Nat} :
    ∀ (l : List Act) (s : SchedState), Inv N s → Inv N (l.foldl step s) := by
  intro l
  induction l with
  | nil => intro s hs; exact hs
  | cons a t ih => intro s hs; exact ih (step s a) (inv_step a hs)

lemma inv_init (n : Nat) (tasks : List Nat) : Inv tasks.length (init n tasks) := by
  refine ⟨?_, ?_, ?_⟩
  · intro l hl
    exact List.eq_of_mem_replicate hl
  · intro w hw
    rw [List.eq_of_mem_replicate hw]
  · simp [init, sumProcessed, List.map_replicate, List.sum_replicate]

lemma inv_run (n : Nat) (tasks : List Nat) (sched : List Act) :
    Inv tasks.length (run n tasks sched) :=
  inv_foldl sched (init n tasks) (inv_init n tasks)

lemma run_localsLen (n : Nat) (tasks : List Nat) (sched : List Act) :
    localsLen (run n tasks sched) = 0 := by
  apply List.sum_eq_zero
  intro x hx
  rcases List.mem_map.mp hx with ⟨l, hl, rfl⟩
  rw [(inv_run n tasks sched).1 l hl]
  rfl

lemma run_sumStolen (n : Nat) (tasks : List Nat) (sched : List Act) :
    sumStolen (run n tasks sched) = 0 := by
  apply List.sum_eq_zero
  intro x hx
  rcases List.mem_map.mp hx with ⟨w, hw, rfl⟩
  exact (inv_run n tasks sched).2.1 w hw


/-- The new thread state of worker `i` after one `stepWorker`: the
per-worker projection of `stepWorker`. -/
def nextW (s : SchedState) (i : Nat) (w : WState) : WState :=
  match w.pc with
  | .condR =>
      if s.running then { w with pc := .tryLocal } else { w with pc := .condE }
  | .condE =>
      match (nth s.locals i).getD [] with
      | [] => { w with pc := .stopped }
      | _ :: _ => { w with pc := .tryLocal }
  | .tryLocal =>
      match (nth s.locals i).getD [] with
      | [] => { w with pc := .tryGlobal }
      | _ :: _ => { w with pc := .condR, processed := w.processed + 1 }
  | .tryGlobal =>
      match s.global with
      | [] => { w with pc := .trySteal 0 }
      | _ :: _ => { w with pc := .condR, processed := w.processed + 1 }
  | .trySteal j =>
      if j < s.locals.length then
        if j = i then { w with pc := .trySteal (j + 1) }
        else
          match (nth s.locals j).getD [] with
          | [] => { w with pc := .trySteal (j + 1) }
          | _ :: _ =>
              { w with
                pc := .backoff
                processed := w.processed + 1
                stolen := w.stolen + 1 }
      else { w with pc := .backoff }
  | .backoff => { w with pc := .condR }
  | .stopped => w

lemma set_of_getElem?_eq {α : Type} :
    ∀ {L : List α} {i : Nat} {w : α}, L[i]? = some w → L.set i w = L := by
  intro L
  induction L with
  | nil => intro i w h; simp at h
  | cons a t ih =>
      intro i w h
      cases i with
      | zero =>
          simp only [List.getElem?_cons_zero, Option.some.injEq] at h
          rw [List.set_cons_zero, h]
      | succ m =>
          simp only [List.getElem?_cons_succ] at h
          rw [List.set_cons_succ, ih h]

lemma stepWorker_workers_set {s : SchedState} {i : Nat} {w : WState}
    (hw : s.workers[i]? = some w) :
    (stepWorker s i w).workers = s.workers.set i (nextW s i w) := by
  unfold stepWorker nextW
  cases w.pc <;> dsimp only <;> (repeat' split) <;>
    simp [setW, set_of_getElem?_eq hw]

lemma setW_get?_self {s : SchedState} {i : Nat} {w : WState}
    (hw : s.workers[i]? = some w) (w₂ : WState) :
    (setW s i w₂).workers[i]? = some w₂ :=
  getElem?_set_self_of_some hw w₂

lemma step_get?_self {s : SchedState} {i : Nat} {w : WState}
    (hw : s.workers[i]? = some w) :
    (step s (.worker i)).workers[i]? = some (nextW s i w) := by
  have hstep : step s (.worker i) = stepWorker s i w := by simp [step, hw]
  rw [hstep, stepWorker_workers_set hw]
  exact getElem?_set_self_of_some hw (nextW s i w)

lemma step_get?_stopped {s : SchedState} {a : Act} {i : Nat} {w : WState}
    (hw : s.workers[i]? = some w) (hpc : w.pc = .stopped) :
    (step s a).workers[i]? = some w := by
  cases a with
  | main =>
      rw [show (step s .main).workers = s.workers from stepMain_workers]
      exact hw
  | worker k =>
      by_cases hk : k = i
      · subst hk
        rw [step_stopped hw hpc]
        exact hw
      · cases hwk : s.workers[k]? with
        | none =>
            rw [step_worker_absent hwk]
            exact hw
        | some wk =>
            have hstep : step s (.worker k) = stepWorker s k wk := by
              simp [step, hwk]
            rw [hstep, stepWorker_getElem?_ne hk]
            exact hw

lemma stopped_only_from_condE {s : SchedState} {a : Act} {i : Nat} {w w₂ : WState}
    (hw : s.workers[i]? = some w) (hw₂ : (step s a).workers[i]? = some w₂)
    (hstop : w₂.pc = .stopped) :
    w.pc = .stopped ∨ (w.pc = .condE ∧ s.locals[i]?.getD [] = []) := by
  cases a with
  | main =>
      left
      rw [show (step s .main).workers = s.workers from stepMain_workers, hw] at hw₂
      injection hw₂ with h
      rw [h]
      exact hstop
  | worker k =>
      by_cases hk : k = i
      · subst hk
        have hnw : w₂ = nextW s k w := by
          have h5 := step_get?_self hw
          rw [h5] at hw₂
          injection hw₂ with h
          exact h.symm
        rw [hnw] at hstop
        unfold nextW at hstop
        cases hpc : w.pc <;> rw [hpc] at hstop <;> dsimp only at hstop
        · split at hstop <;> simp at hstop
        · split at hstop
          next heq =>
              refine Or.inr ⟨rfl, ?_⟩
              rw [← nth_eq_getElem?]
              exact heq
          next heq => simp at hstop
        · split at hstop <;> simp at hstop
        · split at hstop <;> simp at hstop
        · split at hstop
          · split at hstop
            · simp at hstop
            · split at hstop <;> simp at hstop
          · simp at hstop
        · simp at hstop
        · exact Or.inl rfl
      · left
        cases hwk : s.workers[k]? with
        | none =>
            rw [step_worker_absent hwk, hw] at hw₂
            injection hw₂ with h
            rw [h]
            exact hstop
        | some wk =>
            have hstep : step s (.worker k) = stepWorker s k wk := by
              simp [step, hwk]
            rw [hstep, stepWorker_getElem?_ne hk, hw] at hw₂
            injection hw₂ with h
            rw [h]
            exact hstop



lemma locals_set_getD_le {L : List (List Nat)} {j t : Nat} {r : List Nat}
    (hl : L[j]?.getD [] = t :: r) (i : Nat) :
    ((L.set j r)[i]?.getD []).length ≤ (L[i]?.getD []).length := by
  by_cases hij : j = i
  · subst hij
    have hj : j < L.length := by
      by_contra hje
      rw [List.getElem?_eq_none_iff.mpr (le_of_not_lt hje)] at hl
      simp at hl
    rw [List.getElem?_set_self hj, List.getElem?_eq_getElem hj]
    rw [List.getElem?_eq_getElem hj] at hl
    simp only [Option.getD_some] at hl ⊢
    rw [hl]
    simp
  · rw [List.getElem?_set_ne hij]

lemma step_locals_getD_le (s : SchedState) (a : Act) (i : Nat) :
    ((step s a).locals[i]?.getD []).length ≤ (s.locals[i]?.getD []).length := by
  cases a with
  | main =>
      rw [show (step s .main).locals = s.locals from stepMain_locals]
  | worker k =>
      cases hwk : s.workers[k]? with
      | none => rw [step_worker_absent hwk]
      | some wk =>
          cases hpc : wk.pc with
          | condR =>
              cases hr : s.running with
              | true =>
                  rw [step_condR_running hwk hpc hr]
                  exact le_refl _
              | false =>
                  rw [step_condR_stopping hwk hpc hr]
                  exact le_refl _
          | condE =>
              cases hl : s.locals[k]?.getD [] with
              | nil =>
                  rw [step_condE_nil hwk hpc hl]
                  exact le_refl _
              | cons x r =>
                  rw [step_condE_cons hwk hpc hl]
                  exact le_refl _
          | tryLocal =>
              cases hl : s.locals[k]?.getD [] with
              | nil =>
                  rw [step_tryLocal_nil hwk hpc hl]
                  exact le_refl _
              | cons x r =>
                  rw [step_tryLocal_cons hwk hpc hl]
                  exact locals_set_getD_le hl i
          | tryGlobal =>
              cases hg : s.global with
              | nil =>
                  rw [step_tryGlobal_nil hwk hpc hg]
                  exact le_refl _
              | cons x r => rw [step_tryGlobal_cons hwk hpc hg]
          | trySteal j =>
              by_cases hj : j < s.locals.length
              · by_cases hji : j = k
                · rw [step_trySteal_self hwk hpc hj hji]
                  exact le_refl _
                · cases hl : s.locals[j]?.getD [] with
                  | nil =>
                      rw [step_trySteal_nil hwk hpc hj hji hl]
                      exact le_refl _
                  | cons x r =>
                      rw [step_trySteal_cons hwk hpc hj hji hl]
                      exact locals_set_getD_le hl i
              · rw [step_trySteal_beyond hwk hpc hj]
                exact le_refl _
          | backoff =>
              rw [step_backoff hwk hpc]
              exact le_refl _
          | stopped => rw [step_stopped hwk hpc]



/-! ### Claims -/

set_option maxRecDepth 10000

/-- C1, counterexample: a concrete execution in which `shutdown` happens
with one task in the Global Queue; the single worker observes the flag,
finds its own Local Queue empty and stops immediately, so every worker is
Stopped (join returns) while the task is still in the Global Queue,
unprocessed.  This refutes the draining guarantee as claimed. -/
theorem c1_draining_counterexample :
    allStopped (run 1 [5] c1sched) = true ∧
    (run 1 [5] c1sched).running = false ∧
    (run 1 [5] c1sched).global = [5] ∧
    sumProcessed (run 1 [5] c1sched) = 0 := by decide

/-- C1, amended: once the flag is `Stopping`, a worker transitions to
Stopped exactly when it observes its own Local Queue empty at the loop
condition — the Global Queue is not consulted: the stop transition takes
place for any contents of `s.global`, so tasks still in the Global Queue
at that moment can be left unprocessed when join returns. -/
theorem c1_draining_amended (s : SchedState) (a : Act) (i : Nat) (w w₂ : WState) :
    (s.workers[i]? = some w → w.pc = .condE → s.locals[i]?.getD [] = [] →
      step s (.worker i) = setW s i { w with pc := .stopped }) ∧
    (s.workers[i]? = some w → (step s a).workers[i]? = some w₂ → w₂.pc = .stopped →
      w.pc = .stopped ∨ (w.pc = .condE ∧ s.locals[i]?.getD [] = [])) :=
  ⟨fun hw hpc hl => step_condE_nil hw hpc hl,
   fun hw hw₂ hstop => stopped_only_from_condE hw hw₂ hstop⟩

/-- Witness for C1, amended: a concrete worker at the emptiness check with
an empty deque stops in one step. -/
theorem c1_draining_amended_witness :
    step (run 1 [] [Act.main, Act.worker 0]) (Act.worker 0) =
      setW (run 1 [] [Act.main, Act.worker 0]) 0
        { pc := .stopped, processed := 0, stolen := 0 } :=
  (c1_draining_amended (run 1 [] [Act.main, Act.worker 0]) Act.main 0
      { pc := .condE, processed := 0, stolen := 0 }
      { pc := .condE, processed := 0, stolen := 0 }).1
    (by decide) rfl (by decide)

/-- C2, counterexample: a complete execution of the concrete scenario
(4 workers, the 100 tasks with costs `i % 10 + 1`, shutdown, join) in
which every worker stops, all 100 tasks are processed, and every worker
ends with `stolen == 0` — refuting the expectation that at least one
worker ends with `stolen_count > 0`. -/
theorem c2_scenario_counterexample :
    allStopped (run 4 tasks100 c2sched) = true ∧
    sumProcessed (run 4 tasks100 c2sched) = 100 ∧
    (run 4 tasks100 c2sched).workers.all (fun w => w.stolen == 0) = true := by
  decide

/-- C2, amended: in the concrete scenario there is a complete execution
with `total_processed = 100` and `total_stolen = 0` (so `total_stolen ≥ 0`
holds), and in every execution of the scenario `total_stolen = 0` — no
worker ever ends with `stolen_count > 0`, because tasks taken from the
Global Queue are executed immediately and never enter a Local Queue. -/
theorem c2_scenario_amended :
    (allStopped (run 4 tasks100 c2sched) = true ∧
      sumProcessed (run 4 tasks100 c2sched) = 100 ∧
      sumStolen (run 4 tasks100 c2sched) = 0) ∧
    ∀ sched : List Act, sumStolen (run 4 tasks100 sched) = 0 := by
  exact ⟨⟨by decide, by decide, run_sumStolen 4 tasks100 c2sched⟩,
    fun sched => run_sumStolen 4 tasks100 sched⟩

/-- C3: task conservation.  Along every execution the submitted tasks are
split exactly between the pending submissions, the Global Queue, the
Local Queues and the processed counters — removal from a queue is atomic
and feeds exactly one consumer, so nothing is lost or duplicated; and in
any execution in which all submissions completed and the queues drained,
the total processed count equals exactly the number of submitted tasks. -/
theorem c3_exactly_once_delivery (n : Nat) (tasks : List Nat) (sched : List Act) :
    (run n tasks sched).pending.length + (run n tasks sched).global.length +
        localsLen (run n tasks sched) + sumProcessed (run n tasks sched) =
      tasks.length ∧
    ((run n tasks sched).pending = [] → (run n tasks sched).global = [] →
      sumProcessed (run n tasks sched) = tasks.length) := by
  have h := (inv_run n tasks sched).2.2
  have hll := run_localsLen n tasks sched
  refine ⟨by omega, ?_⟩
  intro hp hg
  rw [hp, hg] at h
  simpa using h

/-- Witness for C3: one worker drains a single submitted task and the
processed total equals the number of submissions. -/
theorem c3_exactly_once_delivery_witness :
    sumProcessed (run 1 [2] [Act.main, Act.worker 0, Act.worker 0, Act.worker 0]) = 1 := by
  have h := (c3_exactly_once_delivery 1 [2]
      [Act.main, Act.worker 0, Act.worker 0, Act.worker 0]).2 (by decide) (by decide)
  simpa using h

/-- C4: in every Seeking iteration the work sources are attempted in the
fixed order own Local Queue, then Global Queue, then each peer in index
order skipping self; the first success is executed (the processed counter
advances and the loop restarts) and no later source is consulted in that
iteration — each success case leaves every later source untouched, as the
explicit resulting states show. -/
theorem c4_seeking_order (s : SchedState) (i j t : Nat) (r : List Nat) (w : WState)
    (hw : s.workers[i]? = some w) :
    (w.pc = .condR → s.running = true →
      step s (.worker i) = setW s i { w with pc := .tryLocal }) ∧
    (w.pc = .tryLocal → s.locals[i]?.getD [] = t :: r →
      step s (.worker i) =
        { pending := s.pending
          global := s.global
          locals := s.locals.set i r
          workers := s.workers.set i
            { w with pc := .condR, processed := w.processed + 1 }
          running := s.running }) ∧
    (w.pc = .tryLocal → s.locals[i]?.getD [] = [] →
      step s (.worker i) = setW s i { w with pc := .tryGlobal }) ∧
    (w.pc = .tryGlobal → s.global = t :: r →
      step s (.worker i) =
        { pending := s.pending
          global := r
          locals := s.locals
          workers := s.workers.set i
            { w with pc := .condR, processed := w.processed + 1 }
          running := s.running }) ∧
    (w.pc = .tryGlobal → s.global = [] →
      step s (.worker i) = setW s i { w with pc := .trySteal 0 }) ∧
    (w.pc = .trySteal j → j < s.locals.length → j = i →
      step s (.worker i) = setW s i { w with pc := .trySteal (j + 1) }) ∧
    (w.pc = .trySteal j → j < s.locals.length → ¬ j = i → s.locals[j]?.getD [] = [] →
      step s (.worker i) = setW s i { w with pc := .trySteal (j + 1) }) ∧
    (w.pc = .trySteal j → j < s.locals.length → ¬ j = i → s.locals[j]?.getD [] = t :: r →
      step s (.worker i) =
        { pending := s.pending
          global := s.global
          locals := s.locals.set j r
          workers := s.workers.set i
            { w with
              pc := .backoff
              processed := w.processed + 1
              stolen := w.stolen + 1 }
          running := s.running }) ∧
    (w.pc = .trySteal j → ¬ j < s.locals.length →
      step s (.worker i) = setW s i { w with pc := .backoff }) :=
  ⟨fun hpc hr => step_condR_running hw hpc hr,
   fun hpc hl => step_tryLocal_cons hw hpc hl,
   fun hpc hl => step_tryLocal_nil hw hpc hl,
   fun hpc hg => step_tryGlobal_cons hw hpc hg,
   fun hpc hg => step_tryGlobal_nil hw hpc hg,
   fun hpc hj hji => step_trySteal_self hw hpc hj hji,
   fun hpc hj hji hl => step_trySteal_nil hw hpc hj hji hl,
   fun hpc hj hji hl => step_trySteal_cons hw hpc hj hji hl,
   fun hpc hj => step_trySteal_beyond hw hpc hj⟩

/-- Witness for C4: a concrete running worker at the loop head moves to
its own pop first. -/
theorem c4_seeking_order_witness :
    step (init 2 []) (Act.worker 0) =
      setW (init 2 []) 0 { pc := .tryLocal, processed := 0, stolen := 0 } :=
  (c4_seeking_order (init 2 []) 0 0 0 []
      { pc := .condR, processed := 0, stolen := 0 } (by decide)).1 rfl rfl

/-- C5, counterexample: the bottom-of-loop pause is reached with the
shutdown flag already reading `Stopping`: after the flag flips while a
worker is inside the loop body, the worker completes its failed attempts,
sits at the pause, and performs it — refuting that the pause happens only
when the flag reads `Running`. -/
theorem c5_backoff_counterexample :
    (run 1 [] c5sched).running = false ∧
    (run 1 [] c5sched).workers[0]? =
      some { pc := .backoff, processed := 0, stolen := 0 } ∧
    step (run 1 [] c5sched) (Act.worker 0) =
      setW (run 1 [] c5sched) 0 { pc := .condR, processed := 0, stolen := 0 } := by
  decide

/-- C5, amended: a task popped from the worker's own queue or taken from
the Global Queue returns the worker directly to the loop head without the
pause; the pause is reached only after the peer scan completes — with no
check of the shutdown flag, so it is also performed when the flag is
`Stopping` — and a successful steal also falls through to the pause (the
`break` lands before the sleep). -/
theorem c5_backoff_amended (s : SchedState) (i j t : Nat) (r : List Nat) (w : WState)
    (hw : s.workers[i]? = some w) :
    (w.pc = .tryLocal → s.locals[i]?.getD [] = t :: r →
      (step s (.worker i)).workers[i]? =
        some { w with pc := .condR, processed := w.processed + 1 }) ∧
    (w.pc = .tryGlobal → s.global = t :: r →
      (step s (.worker i)).workers[i]? =
        some { w with pc := .condR, processed := w.processed + 1 }) ∧
    (w.pc = .trySteal j → ¬ j < s.locals.length →
      step s (.worker i) = setW s i { w with pc := .backoff }) ∧
    (w.pc = .trySteal j → j < s.locals.length → ¬ j = i → s.locals[j]?.getD [] = t :: r →
      (step s (.worker i)).workers[i]? =
        some { w with
          pc := .backoff
          processed := w.processed + 1
          stolen := w.stolen + 1 }) := by
  refine ⟨?_, ?_, fun hpc hj => step_trySteal_beyond hw hpc hj, ?_⟩
  · intro hpc hl
    rw [step_tryLocal_cons hw hpc hl]
    exact getElem?_set_self_of_some hw _
  · intro hpc hg
    rw [step_tryGlobal_cons hw hpc hg]
    exact getElem?_set_self_of_some hw _
  · intro hpc hj hji hl
    rw [step_trySteal_cons hw hpc hj hji hl]
    exact getElem?_set_self_of_some hw _

/-- Witness for C5, amended: a concrete worker whose peer scan has passed
the last stealer moves to the pause. -/
theorem c5_backoff_amended_witness :
    step (run 1 [] [Act.worker 0, Act.worker 0, Act.worker 0, Act.worker 0]) (Act.worker 0) =
      setW (run 1 [] [Act.worker 0, Act.worker 0, Act.worker 0, Act.worker 0]) 0
        { pc := .backoff, processed := 0, stolen := 0 } :=
  (c5_backoff_amended (run 1 [] [Act.worker 0, Act.worker 0, Act.worker 0, Act.worker 0])
      0 1 0 [] { pc := .trySteal 1, processed := 0, stolen := 0 } (by decide)).2.2.1
    rfl (by decide)

/-- C6: every obtained task advances the obtaining worker's `processed`
counter by exactly one; the `stolen` counter additionally advances exactly
in the peer-steal case, not when the task came from the worker's own queue
or from the Global Queue; and in every reachable state every worker
satisfies `stolen ≤ processed`. -/
theorem c6_counter_increments (n : Nat) (tasks : List Nat) (sched : List Act)
    (s : SchedState) (i j t : Nat) (r : List Nat) (w : WState) :
    (s.workers[i]? = some w → w.pc = .tryLocal → s.locals[i]?.getD [] = t :: r →
      (step s (.worker i)).workers[i]? =
        some { w with pc := .condR, processed := w.processed + 1 }) ∧
    (s.workers[i]? = some w → w.pc = .tryGlobal → s.global = t :: r →
      (step s (.worker i)).workers[i]? =
        some { w with pc := .condR, processed := w.processed + 1 }) ∧
    (s.workers[i]? = some w → w.pc = .trySteal j → j < s.locals.length → ¬ j = i →
      s.locals[j]?.getD [] = t :: r →
      (step s (.worker i)).workers[i]? =
        some { w with
          pc := .backoff
          processed := w.processed + 1
          stolen := w.stolen + 1 }) ∧
    (∀ x ∈ (run n tasks sched).workers, x.stolen ≤ x.processed) := by
  refine ⟨?_, ?_, ?_, ?_⟩
  · intro hw hpc hl
    rw [step_tryLocal_cons hw hpc hl]
    exact getElem?_set_self_of_some hw _
  · intro hw hpc hg
    rw [step_tryGlobal_cons hw hpc hg]
    exact getElem?_set_self_of_some hw _
  · intro hw hpc hj hji hl
    rw [step_trySteal_cons hw hpc hj hji hl]
    exact getElem?_set_self_of_some hw _
  · intro x hx
    rw [(inv_run n tasks sched).2.1 x hx]
    exact Nat.zero_le _

/-- Witness for C6: a concrete worker taking the single task from the
Global Queue advances `processed` to 1 and leaves `stolen` at 0. -/
theorem c6_counter_increments_witness :
    (step (run 1 [7] [Act.main, Act.worker 0, Act.worker 0]) (Act.worker 0)).workers[0]? =
      some { pc := .condR, processed := 1, stolen := 0 } :=
  (c6_counter_increments 1 [7] [Act.main, Act.worker 0, Act.worker 0]
      (run 1 [7] [Act.main, Act.worker 0, Act.worker 0]) 0 0 7 []
      { pc := .tryGlobal, processed := 0, stolen := 0 }).2.1
    (by decide) rfl (by decide)

/-- C7: a Stopped worker's record — in particular its two counters — is
never changed by any further step of any actor, so the values `join` reads
are the workers' final counters; and the join result is defined exactly
when every worker is Stopped, in which case it is the pair of the summed
`processed` and summed `stolen` counters. -/
theorem c7_join_aggregates (s : SchedState) (a : Act) (i : Nat) (w : WState)
    (p : Nat × Nat) :
    (s.workers[i]? = some w → w.pc = .stopped → (step s a).workers[i]? = some w) ∧
    (joinResult s = some p → allStopped s = true ∧ p = (sumProcessed s, sumStolen s)) ∧
    (allStopped s = true → joinResult s = some (sumProcessed s, sumStolen s)) := by
  refine ⟨fun hw hpc => step_get?_stopped hw hpc, ?_, ?_⟩
  · intro hj
    unfold joinResult at hj
    split at hj
    next h =>
        refine ⟨h, ?_⟩
        injection hj with h₂
        exact h₂.symm
    next h => cases hj
  · intro h
    simp [joinResult, h]

/-- Witness for C7: a concrete stopped worker is untouched by a further
main-thread step. -/
theorem c7_join_aggregates_witness :
    (step (run 1 [] [Act.main, Act.worker 0, Act.worker 0]) Act.main).workers[0]? =
      some { pc := .stopped, processed := 0, stolen := 0 } :=
  (c7_join_aggregates (run 1 [] [Act.main, Act.worker 0, Act.worker 0]) Act.main 0
      { pc := .stopped, processed := 0, stolen := 0 } (0, 0)).1 (by decide) rfl

/-- C8: the shutdown flag is monotone — once `false` (`Stopping`) no step
of any actor ever resets it to `true` (`Running`); the store performed by
`shutdown()` is idempotent, changes nothing but the flag (it does not wait
on any worker), and is exactly the main thread's step once submissions are
done while the flag still reads `Running`. -/
theorem c8_shutdown_flag :
    (∀ (s : SchedState) (a : Act), s.running = false → (step s a).running = false) ∧
    (∀ s : SchedState, shutdownOp (shutdownOp s) = shutdownOp s) ∧
    (∀ s : SchedState, (shutdownOp s).running = false ∧
      (shutdownOp s).pending = s.pending ∧ (shutdownOp s).global = s.global ∧
      (shutdownOp s).locals = s.locals ∧ (shutdownOp s).workers = s.workers) ∧
    (∀ s : SchedState, s.pending = [] → s.running = true →
      step s .main = shutdownOp s) := by
  refine ⟨?_, fun s => rfl, fun s => ⟨rfl, rfl, rfl, rfl, rfl⟩,
    fun s h1 h2 => step_main_shutdown h1 h2⟩
  intro s a hr
  cases a with
  | main =>
      cases hp : s.pending with
      | cons t r =>
          rw [step_main_push hp]
          exact hr
      | nil =>
          rw [step_main_idle hp hr]
          exact hr
  | worker k =>
      cases hwk : s.workers[k]? with
      | none =>
          rw [step_worker_absent hwk]
          exact hr
      | some wk =>
          have hstep : step s (.worker k) = stepWorker s k wk := by
            simp [step, hwk]
          rw [hstep, stepWorker_running]
          exact hr

/-- Witness for C8: after a concrete shutdown the flag stays `Stopping`
across a further step. -/
theorem c8_shutdown_flag_witness :
    (step (shutdownOp (init 1 [])) Act.main).running = false :=
  c8_shutdown_flag.1 (shutdownOp (init 1 [])) Act.main rfl

/-- C9: constructing the scheduler with `worker_count = 0` fails with a
`ConfigurationError` and no scheduler state is produced; with a positive
`worker_count` construction succeeds with the Global Queue empty, one
Local Queue per worker, and exactly `worker_count` workers all started at
the loop head with zero counters. -/
theorem c9_new_validation (n : Nat) :
    new 0 = Except.error ConfigurationError.zeroWorkers ∧
    (0 < n →
      new n = Except.ok (init n []) ∧
      (init n []).workers.length = n ∧
      (init n []).locals.length = n ∧
      (init n []).global = [] ∧
      (init n []).running = true ∧
      ∀ w ∈ (init n []).workers, w = { pc := .condR, processed := 0, stolen := 0 }) := by
  refine ⟨rfl, fun hn => ⟨?_, ?_, ?_, rfl, rfl, ?_⟩⟩
  · unfold new
    rw [if_neg (Nat.pos_iff_ne_zero.mp hn)]
  · simp [init]
  · simp [init]
  · intro w hw
    exact List.eq_of_mem_replicate hw

/-- Witness for C9: construction with 4 workers succeeds and starts
exactly 4 workers. -/
theorem c9_new_validation_witness :
    new 4 = Except.ok (init 4 []) ∧ (init 4 []).workers.length = 4 :=
  ⟨((c9_new_validation 4).2 (by decide)).1, ((c9_new_validation 4).2 (by decide)).2.1⟩

/-- C10: in every execution every Local Queue stays empty (no step ever
pushes into one — no step even increases any local deque's length), every
worker's `stolen` counter stays 0, each owner pop finds nothing and moves
on to the Global Queue, and each steal attempt against a peer fails and
moves to the next peer. -/
theorem c10_locals_never_pushed (n : Nat) (tasks : List Nat) (sched : List Act) :
    (∀ l ∈ (run n tasks sched).locals, l = []) ∧
    (∀ x ∈ (run n tasks sched).workers, x.stolen = 0) ∧
    (∀ (s : SchedState) (a : Act) (i : Nat),
      ((step s a).locals[i]?.getD []).length ≤ (s.locals[i]?.getD []).length) ∧
    (∀ (i : Nat) (w : WState), (run n tasks sched).workers[i]? = some w →
      w.pc = .tryLocal →
      step (run n tasks sched) (.worker i) =
        setW (run n tasks sched) i { w with pc := .tryGlobal }) ∧
    (∀ (i j : Nat) (w : WState), (run n tasks sched).workers[i]? = some w →
      w.pc = .trySteal j → j < (run n tasks sched).locals.length → ¬ j = i →
      step (run n tasks sched) (.worker i) =
        setW (run n tasks sched) i { w with pc := .trySteal (j + 1) }) := by
  refine ⟨(inv_run n tasks sched).1, (inv_run n tasks sched).2.1,
    step_locals_getD_le, ?_, ?_⟩
  · intro i w hw hpc
    exact step_tryLocal_nil hw hpc (getD_of_all_nil (inv_run n tasks sched).1 i)
  · intro i j w hw hpc hj hji
    exact step_trySteal_nil hw hpc hj hji (getD_of_all_nil (inv_run n tasks sched).1 j)

/-- Witness for C10: a concrete worker's own pop finds nothing and moves
on to the Global Queue. -/
theorem c10_locals_never_pushed_witness :
    step (run 1 [] [Act.worker 0]) (Act.worker 0) =
      setW (run 1 [] [Act.worker 0]) 0 { pc := .tryGlobal, processed := 0, stolen := 0 } :=
  (c10_locals_never_pushed 1 [] [Act.worker 0]).2.2.2.1 0
    { pc := .tryLocal, processed := 0, stolen := 0 } (by decide) rfl


end WorkStealing
